import Mathlib

/-!
Verification of the color-smoother grid-evolution engine against its
specification.

The repository sources contain only the TypeScript rendering clients
(src/src/main.ts and the unnamed client variants); the Rust/Wasm core
brought in from the cell-smoother package (Shade, Grid, NeighborAverager,
StepLimiter, Universe) is not among the sources.  The core is therefore
modelled from the specification, definition by definition, and the claims
are settled against that model.  The client-side claims are embedded
directly from the TypeScript sources.
-/

/-- Modelled from the spec: the missing core defines a Shade as an integer in
the fixed range 0..MAX_SHADE with MAX_SHADE = 15. -/
def MAX_SHADE : Nat := 15

/-- Modelled from the spec: the missing core's Grid is a fixed-size row-major
collection of Shade values with width and height metadata (index =
row * width + col).  It doubles as the observable state of a Universe: the
scratch buffer of the double-buffering scheme is never externally visible,
so a tick is modelled as a pure function producing the next generation. -/
structure Grid where
  width : Nat
  height : Nat
  cells : List Nat
deriving DecidableEq, Repr

/-- Modelled from the spec: indexed read of the Shade at (row, col) of a grid,
row-major (index = row * width + col). -/
def Grid.get (g : Grid) (r c : Nat) : Nat :=
  g.cells.getD (r * g.width + c) 0

/-- Modelled from the spec: the missing core's StepLimiter.  Given the current
shade and a target shade it moves one unit toward the target, or stays put
when they are equal. -/
def stepLimiter (cur target : Nat) : Nat :=
  if target > cur then cur + 1
  else if target < cur then cur - 1
  else cur

/-- Modelled from the spec: the list of Moore-neighborhood positions of cell
(r, c) that lie inside an h-by-w grid.  A neighbor position falling outside
the grid is simply excluded (boundary policy: ignore missing neighbors, no
wraparound, no padding). -/
def nbrList (h w r c : Nat) : List (Nat × Nat) :=
  (if 0 < r ∧ 0 < c then [(r - 1, c - 1)] else []) ++
  (if 0 < r then [(r - 1, c)] else []) ++
  (if 0 < r ∧ c + 1 < w then [(r - 1, c + 1)] else []) ++
  (if 0 < c then [(r, c - 1)] else []) ++
  (if c + 1 < w then [(r, c + 1)] else []) ++
  (if r + 1 < h ∧ 0 < c then [(r + 1, c - 1)] else []) ++
  (if r + 1 < h then [(r + 1, c)] else []) ++
  (if r + 1 < h ∧ c + 1 < w then [(r + 1, c + 1)] else [])

/-- Modelled from the spec: the weight of neighbor (i, j) of cell (r, c): a
cardinal neighbor (same row or same column) weighs Wc, a diagonal neighbor
weighs Wd. -/
def nbrWeight (Wc Wd r c i j : Nat) : Nat :=
  if i = r ∨ j = c then Wc else Wd

/-- Modelled from the spec: rounding division, round-half-away-from-zero
(for non-negative operands this is round-half-up): round(n / d). -/
def roundDiv (n d : Nat) : Nat :=
  (2 * n + d) / (2 * d)

/-- Modelled from the spec: the total-weight denominator of the weighted
average at (r, c): the sum of the weights of the neighbors that exist. -/
def totalWeight (Wc Wd : Nat) (g : Grid) (r c : Nat) : Nat :=
  ((nbrList g.height g.width r c).map (fun p => nbrWeight Wc Wd r c p.1 p.2)).sum

/-- Modelled from the spec: the weighted sum of the existing neighbors'
shades at (r, c). -/
def weightedSum (Wc Wd : Nat) (g : Grid) (r c : Nat) : Nat :=
  ((nbrList g.height g.width r c).map
    (fun p => nbrWeight Wc Wd r c p.1 p.2 * g.get p.1 p.2)).sum

/-- Modelled from the spec: the missing core's NeighborAverager.  The target
shade is round(sum of weight_i * shade_i / sum of weight_i) over only the
neighbors that exist, clamped into 0..MAX_SHADE as a defensive invariant;
with zero neighbors the target is the current shade. -/
def neighborAverager (Wc Wd : Nat) (g : Grid) (r c : Nat) : Nat :=
  let W := totalWeight Wc Wd g r c
  if W = 0 then g.get r c
  else min MAX_SHADE (roundDiv (weightedSum Wc Wd g r c) W)

/-- Declarative characterization of a Moore neighbor, taken from the spec's
words: an in-grid position at Chebyshev distance exactly 1 from (r, c),
i.e. within one row and one column but not the cell itself. -/
def isNbr (h w r c i j : Nat) : Prop :=
  i < h ∧ j < w ∧ i ≤ r + 1 ∧ r ≤ i + 1 ∧ j ≤ c + 1 ∧ c ≤ j + 1 ∧ ¬(i = r ∧ j = c)

instance (h w r c i j : Nat) : Decidable (isNbr h w r c i j) := by
  unfold isNbr; infer_instance

/-- The set of Moore neighbors of (r, c) inside an h-by-w grid, built from the
declarative characterization by filtering all grid positions. -/
def nbrFinset (h w r c : Nat) : Finset (Nat × Nat) :=
  (Finset.range h ×ˢ Finset.range w).filter (fun p => isNbr h w r c p.1 p.2)

/-- Declarative total-weight denominator: sum of the weights over the
declaratively characterized neighbor set. -/
def specWeightTotal (Wc Wd h w r c : Nat) : Nat :=
  ∑ p ∈ nbrFinset h w r c, nbrWeight Wc Wd r c p.1 p.2

/-- Declarative weighted sum over the declaratively characterized neighbor
set. -/
def specWeightedSum (Wc Wd : Nat) (g : Grid) (r c : Nat) : Nat :=
  ∑ p ∈ nbrFinset g.height g.width r c, nbrWeight Wc Wd r c p.1 p.2 * g.get p.1 p.2

/-- Modelled from the spec: the error taxonomy of the missing core. -/
inductive UniverseError where
  | invalidDimensions
  | outOfBounds
deriving DecidableEq, Repr

/-- Modelled from the spec: Universe.create(width, height).  Width and height
must be at least 1, else it fails with InvalidDimensions, propagated
synchronously to the caller with no Universe constructed.  At construction
every cell is drawn from an injected source of randomness, reduced into
0..MAX_SHADE. -/
def Universe.create (width height : Int) (rand : Nat → Nat) : Except UniverseError Grid :=
  if width ≤ 0 ∨ height ≤ 0 then .error .invalidDimensions
  else .ok { width := width.toNat
             height := height.toNat
             cells := (List.range (height.toNat * width.toNat)).map
                        (fun i => rand i % (MAX_SHADE + 1)) }

/-- Modelled from the spec: currentView() exposes the current generation as a
read-only row-major sequence of width*height Shade values. -/
def currentView (g : Grid) : List Nat :=
  g.cells

/-- Modelled from the spec: the value written into the scratch slot for cell
index k during a tick: StepLimiter applied to the current shade and the
NeighborAverager target, both read from the frozen current generation. -/
def newShade (Wc Wd : Nat) (g : Grid) (k : Nat) : Nat :=
  stepLimiter (g.cells.getD k 0) (neighborAverager Wc Wd g (k / g.width) (k % g.width))

/-- Modelled from the spec: one tick().  Every cell of the next generation is
computed from the frozen current generation; after all cells are computed the
buffers swap, so observably the grid transitions to the fully computed next
generation. -/
def tick (Wc Wd : Nat) (g : Grid) : Grid :=
  { g with cells := (List.range (g.height * g.width)).map (newShade Wc Wd g) }

/-- Modelled from the spec: n successive tick() calls. -/
def tickN (Wc Wd : Nat) : Nat → Grid → Grid
  | 0, g => g
  | n + 1, g => tick Wc Wd (tickN Wc Wd n g)

/-- Modelled from the spec: a tick that writes the per-cell results into the
scratch buffer one cell at a time in an arbitrary evaluation order, each
write reading only from the frozen current generation.  Used to state that
the evaluation order does not matter. -/
def tickSeq (Wc Wd : Nat) (g : Grid) (order : List Nat) : Grid :=
  { g with cells := order.foldl (fun acc k => acc.set k (newShade Wc Wd g k)) g.cells }

/-! The client model, embedded from the TypeScript rendering sources
(src/src/main.ts and the unnamed variants).  The Wasm side is abstract: a
linear memory of bytes and a universe handle exposing the address of its
current-cells buffer; evolve() is an arbitrary state transformer. -/

/-- From the TypeScript sources: the Wasm universe handle as the client sees
it, exposing cells_ptr()/jscells(), the address of the current cells
buffer. -/
structure WasmUniverse where
  cellsPtr : Nat

/-- From the TypeScript sources: the Wasm runtime state the client can
observe: the linear memory (memory.buffer, a byte store) and the universe
handle. -/
structure WasmState where
  mem : Nat → Nat
  uni : WasmUniverse

/-- From the TypeScript sources: the client's `cells` object — a Uint8Array
view over memory.buffer determined by a base pointer and a length. -/
structure ClientView where
  ptr : Nat
  len : Nat
deriving DecidableEq, Repr

/-- From the TypeScript sources (createUniverse in src/src/main.ts and the
unnamed variants): `const cellsPtr = universe.cells_ptr(); const cells = new
Uint8Array(memory.buffer, cellsPtr, width * height);` — the view is built
once, at the creation-time pointer, with length width * height. -/
def clientCreateView (w h : Nat) (st : WasmState) : ClientView :=
  { ptr := st.uni.cellsPtr, len := w * h }

/-- From the TypeScript sources: reading the bytes a Uint8Array view exposes:
the len bytes of memory starting at ptr. -/
def readView (mem : Nat → Nat) (v : ClientView) : List Nat :=
  (List.range v.len).map (fun i => mem (v.ptr + i))

/-- From the TypeScript sources (run/evolveUniverse): the client state after n
clicks of the evolve button.  At creation the view is built from the fresh
universe; each click runs `universe.evolve()` and then re-renders from the
same captured `cells` view, never refetching the pointer. -/
def clientState (evolve : WasmState → WasmState) (w h : Nat) (st0 : WasmState) :
    Nat → WasmState × ClientView
  | 0 => (st0, clientCreateView w h st0)
  | n + 1 =>
    let s := clientState evolve w h st0 n
    (evolve s.1, s.2)

/-- From the TypeScript sources (drawUniverse): what the client displays after
n clicks: the bytes its captured view exposes in the current memory. -/
def displayedAt (evolve : WasmState → WasmState) (w h : Nat) (st0 : WasmState)
    (n : Nat) : List Nat :=
  readView (clientState evolve w h st0 n).1.mem (clientState evolve w h st0 n).2

/-- The spec's concrete 3-by-3 scenario grid: all zero except shade 15 at the
center. -/
def exGrid3 : Grid :=
  { width := 3, height := 3, cells := [0, 0, 0, 0, 15, 0, 0, 0, 0] }

/-- A small concrete 2-by-2 grid used to instantiate hypotheses. -/
def exGrid2 : Grid :=
  { width := 2, height := 2, cells := [3, 5, 7, 9] }

/-! Helper lemmas shared by the claim theorems. -/

theorem tick_cells_getElem? (Wc Wd : Nat) (g : Grid) (k : Nat)
    (hk : k < g.height * g.width) :
    (tick Wc Wd g).cells[k]? = some (newShade Wc Wd g k) := by
  simp [tick, List.getElem?_map, List.getElem?_range, hk]

theorem tick_cells_getD (Wc Wd : Nat) (g : Grid) (k : Nat)
    (hk : k < g.height * g.width) :
    (tick Wc Wd g).cells.getD k 0 = newShade Wc Wd g k := by
  simp [List.getD_eq_getElem?_getD, tick_cells_getElem? Wc Wd g k hk]

theorem stepLimiter_bound (cur tgt : Nat) :
    stepLimiter cur tgt ≤ cur + 1 ∧ cur ≤ stepLimiter cur tgt + 1 := by
  unfold stepLimiter; split_ifs <;> omega

theorem tick_1x1 (Wc Wd s : Nat) :
    tick Wc Wd { width := 1, height := 1, cells := [s] } =
      { width := 1, height := 1, cells := [s] } := by
  simp [tick, List.range_succ, newShade, neighborAverager, totalWeight, nbrList,
    Grid.get, stepLimiter]

/-- C2: StepLimiter moves one unit toward the target, or stays put when the
target equals the current shade, for every pair of valid Shades. -/
theorem stepLimiter_spec (cur tgt : Nat) (_hcur : cur ≤ MAX_SHADE)
    (_htgt : tgt ≤ MAX_SHADE) :
    (tgt > cur → stepLimiter cur tgt = cur + 1) ∧
    (tgt < cur → stepLimiter cur tgt = cur - 1) ∧
    (tgt = cur → stepLimiter cur tgt = cur) := by
  unfold stepLimiter
  refine ⟨fun h => ?_, fun h => ?_, fun h => ?_⟩ <;> split_ifs <;> omega

theorem stepLimiter_spec_witness :
    (5 > 3 → stepLimiter 3 5 = 4) ∧ (5 < 3 → stepLimiter 3 5 = 2) ∧
    (5 = 3 → stepLimiter 3 5 = 3) :=
  stepLimiter_spec 3 5 (by decide) (by decide)

/-- C3: a single tick changes every cell's shade by at most one unit. -/
theorem tick_step_bound (Wc Wd : Nat) (g : Grid) (k : Nat)
    (hk : k < g.height * g.width) :
    |((tick Wc Wd g).cells.getD k 0 : ℤ) - (g.cells.getD k 0 : ℤ)| ≤ 1 := by
  rw [tick_cells_getD Wc Wd g k hk, newShade]
  have h := stepLimiter_bound (g.cells.getD k 0)
    (neighborAverager Wc Wd g (k / g.width) (k % g.width))
  rw [abs_le]
  omega

theorem tick_step_bound_witness :
    |((tick 2 1 exGrid2).cells.getD 2 0 : ℤ) - (exGrid2.cells.getD 2 0 : ℤ)| ≤ 1 :=
  tick_step_bound 2 1 exGrid2 2 (by decide)

/-- C6 counterexample: on the spec's 3-by-3 scenario the corners do not remain
0 after one tick; the corner cell (0,0) moves to shade 1, so the claimed
resulting grid (corners 0) is not the one the algorithm produces. -/
theorem tick_3x3_claim_false :
    (tick 2 1 exGrid3).cells.getD 0 0 = 1 ∧
    ¬((tick 2 1 exGrid3).cells = [0, 1, 0, 1, 14, 1, 0, 1, 0]) := by
  constructor <;> decide

/-- C6 (amended): on the 3-by-3 grid with shade 15 at the center and 0
elsewhere, with Wc = 2 and Wd = 1, one tick produces center 14,
edge-midpoints 1, and corners 1 (each corner sees the center as a diagonal
neighbor, target round(15/5) = 3, so it steps from 0 to 1). -/
theorem tick_3x3_scenario :
    (tick 2 1 exGrid3).cells = [1, 1, 1, 1, 14, 1, 1, 1, 1] := by
  decide

/-- C7: on a 1-by-1 grid the averaging is still defined — with zero neighbors
the target equals the current shade — and any number of ticks leaves the
single cell unchanged. -/
theorem tick_1x1_noop (Wc Wd s : Nat) :
    neighborAverager Wc Wd { width := 1, height := 1, cells := [s] } 0 0 = s ∧
    ∀ n, tickN Wc Wd n { width := 1, height := 1, cells := [s] } =
      { width := 1, height := 1, cells := [s] } := by
  constructor
  · simp [neighborAverager, totalWeight, nbrList, Grid.get]
  · intro n
    induction n with
    | zero => rfl
    | succ m ih => rw [tickN, ih, tick_1x1]

/-- C8: Universe.create fails with InvalidDimensions, with no Universe
constructed, whenever the width or the height is zero or negative. -/
theorem create_invalid_dims (w h : Int) (rand : Nat → Nat)
    (hwh : w ≤ 0 ∨ h ≤ 0) :
    Universe.create w h rand = .error .invalidDimensions := by
  unfold Universe.create
  rw [if_pos hwh]

theorem create_invalid_dims_witness :
    Universe.create 0 5 (fun i => i) = .error .invalidDimensions :=
  create_invalid_dims 0 5 (fun i => i) (Or.inl (by decide))

theorem mem_nbrList {h w r c : Nat} (hr : r < h) (hc : c < w) (i j : Nat) :
    (i, j) ∈ nbrList h w r c ↔ isNbr h w r c i j := by
  by_cases h1 : 0 < r <;> by_cases h2 : 0 < c <;>
    by_cases h3 : r + 1 < h <;> by_cases h4 : c + 1 < w <;>
    simp [nbrList, isNbr, h1, h2, h3, h4, Prod.ext_iff] <;>
    omega

theorem nbrList_nodup (h w r c : Nat) : (nbrList h w r c).Nodup := by
  by_cases h1 : 0 < r <;> by_cases h2 : 0 < c <;>
    by_cases h3 : r + 1 < h <;> by_cases h4 : c + 1 < w <;>
    simp [nbrList, h1, h2, h3, h4, Prod.ext_iff] <;>
    omega

theorem idx_lt {i j h w : Nat} (hi : i < h) (hj : j < w) : i * w + j < h * w :=
  calc i * w + j < i * w + w := by omega
    _ = (i + 1) * w := by ring
    _ ≤ h * w := Nat.mul_le_mul_right w hi

theorem get_replicate {w h i j : Nat} (s : Nat) (hi : i < h) (hj : j < w) :
    Grid.get { width := w, height := h, cells := List.replicate (h * w) s } i j = s := by
  simp [Grid.get, List.getD_eq_getElem?_getD, List.getElem?_replicate, idx_lt hi hj]

theorem sum_map_mul_const {α : Type} (l : List α) (f : α → Nat) (s : Nat) :
    (l.map fun a => f a * s).sum = (l.map f).sum * s := by
  induction l with
  | nil => simp
  | cons a t ih => simp [ih, add_mul]

theorem neighborAverager_uniform (Wc Wd : Nat) {w h r c : Nat} (s : Nat)
    (hr : r < h) (hc : c < w) (hs : s ≤ MAX_SHADE) :
    neighborAverager Wc Wd
      { width := w, height := h, cells := List.replicate (h * w) s } r c = s := by
  set g : Grid := { width := w, height := h, cells := List.replicate (h * w) s } with hg
  have hget : ∀ p ∈ nbrList h w r c, g.get p.1 p.2 = s := by
    intro p hp
    obtain ⟨i, j⟩ := p
    have := (mem_nbrList hr hc i j).mp hp
    exact get_replicate s this.1 this.2.1
  have hws : weightedSum Wc Wd g r c = totalWeight Wc Wd g r c * s := by
    unfold weightedSum totalWeight
    rw [List.map_congr_left
      (fun p hp => by rw [hget p hp] :
        ∀ p ∈ nbrList g.height g.width r c,
          nbrWeight Wc Wd r c p.1 p.2 * g.get p.1 p.2 = nbrWeight Wc Wd r c p.1 p.2 * s)]
    exact sum_map_mul_const _ _ s
  unfold neighborAverager
  by_cases hW : totalWeight Wc Wd g r c = 0
  · rw [if_pos hW]
    exact get_replicate s hr hc
  · rw [if_neg hW, hws]
    have hdiv : roundDiv (totalWeight Wc Wd g r c * s) (totalWeight Wc Wd g r c) = s := by
      unfold roundDiv
      have : 2 * (totalWeight Wc Wd g r c * s) + totalWeight Wc Wd g r c =
          totalWeight Wc Wd g r c * (2 * s + 1) := by ring
      rw [this, mul_comm 2 (totalWeight Wc Wd g r c),
        Nat.mul_div_mul_left _ _ (Nat.pos_of_ne_zero hW)]
      omega
    rw [hdiv]
    exact min_eq_right hs

/-- C5: on a uniform grid every cell's computed target equals its current
shade and a tick leaves the whole grid unchanged, regardless of how many
neighbors are excluded at the boundary. -/
theorem tick_uniform (Wc Wd w h s : Nat) (hs : s ≤ MAX_SHADE) :
    (∀ k, k < h * w →
      neighborAverager Wc Wd
        { width := w, height := h, cells := List.replicate (h * w) s }
        (k / w) (k % w) = s) ∧
    tick Wc Wd { width := w, height := h, cells := List.replicate (h * w) s } =
      { width := w, height := h, cells := List.replicate (h * w) s } := by
  have hw : ∀ k, k < h * w → 0 < w := by
    intro k hk
    rcases Nat.eq_zero_or_pos w with h0 | h0
    · rw [h0, Nat.mul_zero] at hk
      omega
    · exact h0
  have htgt : ∀ k, k < h * w →
      neighborAverager Wc Wd
        { width := w, height := h, cells := List.replicate (h * w) s }
        (k / w) (k % w) = s := by
    intro k hk
    have hw0 := hw k hk
    have hr : k / w < h := (Nat.div_lt_iff_lt_mul hw0).mpr hk
    have hc : k % w < w := Nat.mod_lt _ hw0
    exact neighborAverager_uniform Wc Wd s hr hc hs
  refine ⟨htgt, ?_⟩
  unfold tick
  simp only [Grid.mk.injEq, true_and]
  rw [List.eq_replicate_iff]
  constructor
  · simp
  · intro b hb
    simp only [List.mem_map, List.mem_range] at hb
    obtain ⟨k, hk, hbk⟩ := hb
    have hget : (List.replicate (h * w) s).getD k 0 = s := by
      simp [List.getD_eq_getElem?_getD, List.getElem?_replicate, hk]
    rw [← hbk]
    unfold newShade
    simp only
    rw [hget, htgt k hk]
    simp [stepLimiter]

theorem tick_uniform_witness :
    (∀ k, k < 2 * 3 →
      neighborAverager 2 1
        { width := 3, height := 2, cells := List.replicate (2 * 3) 7 }
        (k / 3) (k % 3) = 7) ∧
    tick 2 1 { width := 3, height := 2, cells := List.replicate (2 * 3) 7 } =
      { width := 3, height := 2, cells := List.replicate (2 * 3) 7 } :=
  tick_uniform 2 1 3 2 7 (by decide)

theorem getD_le_of_all {l : List Nat} {b : Nat} (k : Nat)
    (hall : ∀ x ∈ l, x ≤ b) : l.getD k 0 ≤ b := by
  rw [List.getD_eq_getElem?_getD]
  cases hx : l[k]? with
  | none => simp
  | some v =>
    simp only [Option.getD_some]
    exact hall v (List.getElem?_mem hx)

theorem neighborAverager_le (Wc Wd : Nat) (g : Grid) (r c : Nat)
    (hall : ∀ x ∈ g.cells, x ≤ MAX_SHADE) :
    neighborAverager Wc Wd g r c ≤ MAX_SHADE := by
  unfold neighborAverager
  simp only
  split_ifs
  · exact getD_le_of_all _ hall
  · exact min_le_left _ _

theorem stepLimiter_le {cur tgt b : Nat} (hcur : cur ≤ b) (htgt : tgt ≤ b) :
    stepLimiter cur tgt ≤ b := by
  unfold stepLimiter
  split_ifs <;> omega

theorem tick_width (Wc Wd : Nat) (g : Grid) : (tick Wc Wd g).width = g.width := rfl

theorem tick_height (Wc Wd : Nat) (g : Grid) : (tick Wc Wd g).height = g.height := rfl

theorem tick_length (Wc Wd : Nat) (g : Grid) :
    (tick Wc Wd g).cells.length = g.height * g.width := by
  simp [tick]

theorem tick_all_le (Wc Wd : Nat) (g : Grid)
    (hall : ∀ x ∈ g.cells, x ≤ MAX_SHADE) :
    ∀ x ∈ (tick Wc Wd g).cells, x ≤ MAX_SHADE := by
  intro x hx
  simp only [tick, List.mem_map, List.mem_range] at hx
  obtain ⟨k, _, rfl⟩ := hx
  unfold newShade
  exact stepLimiter_le (getD_le_of_all _ hall) (neighborAverager_le Wc Wd g _ _ hall)

theorem tickN_invariant (Wc Wd n : Nat) (g : Grid)
    (hlen : g.cells.length = g.height * g.width)
    (hall : ∀ x ∈ g.cells, x ≤ MAX_SHADE) :
    (tickN Wc Wd n g).width = g.width ∧ (tickN Wc Wd n g).height = g.height ∧
    (tickN Wc Wd n g).cells.length = g.height * g.width ∧
    ∀ x ∈ (tickN Wc Wd n g).cells, x ≤ MAX_SHADE := by
  induction n with
  | zero => exact ⟨rfl, rfl, hlen, hall⟩
  | succ m ih =>
    obtain ⟨ihw, ihh, ihlen, ihall⟩ := ih
    refine ⟨?_, ?_, ?_, ?_⟩
    · rw [tickN, tick_width, ihw]
    · rw [tickN, tick_height, ihh]
    · rw [tickN, tick_length, ihh, ihw]
    · exact tick_all_le Wc Wd _ ihall

/-- C4: for width and height at least 1, Universe.create succeeds; immediately
after creation and after every sequence of ticks, currentView returns exactly
width*height values, each within 0..MAX_SHADE. -/
theorem create_tick_invariant (w h : Int) (rand : Nat → Nat) (Wc Wd : Nat)
    (hw : 1 ≤ w) (hh : 1 ≤ h) :
    ∃ g, Universe.create w h rand = .ok g ∧
      ∀ n, (currentView (tickN Wc Wd n g)).length = w.toNat * h.toNat ∧
        ∀ x ∈ currentView (tickN Wc Wd n g), x ≤ MAX_SHADE := by
  unfold Universe.create
  rw [if_neg (by omega)]
  refine ⟨_, rfl, fun n => ?_⟩
  have hlen : ((List.range (h.toNat * w.toNat)).map
      (fun i => rand i % (MAX_SHADE + 1))).length = h.toNat * w.toNat := by
    simp
  have hall : ∀ x ∈ (List.range (h.toNat * w.toNat)).map
      (fun i => rand i % (MAX_SHADE + 1)), x ≤ MAX_SHADE := by
    intro x hx
    simp only [List.mem_map, List.mem_range] at hx
    obtain ⟨k, _, rfl⟩ := hx
    have := Nat.mod_lt (rand k) (show 0 < MAX_SHADE + 1 by decide)
    omega
  have inv := tickN_invariant Wc Wd n
    { width := w.toNat, height := h.toNat,
      cells := (List.range (h.toNat * w.toNat)).map (fun i => rand i % (MAX_SHADE + 1)) }
    hlen hall
  exact ⟨by rw [currentView, inv.2.2.1, Nat.mul_comm], inv.2.2.2⟩

theorem create_tick_invariant_witness :
    ∃ g, Universe.create 2 3 (fun i => i) = .ok g ∧
      ∀ n, (currentView (tickN 2 1 n g)).length = (2 : Int).toNat * (3 : Int).toNat ∧
        ∀ x ∈ currentView (tickN 2 1 n g), x ≤ MAX_SHADE :=
  create_tick_invariant 2 3 (fun i => i) 2 1 (by decide) (by decide)

theorem foldl_set_length (f : Nat → Nat) (order : List Nat) (init : List Nat) :
    (order.foldl (fun acc k => acc.set k (f k)) init).length = init.length := by
  induction order generalizing init with
  | nil => rfl
  | cons a t ih => simp [List.foldl_cons, ih, List.length_set]

theorem foldl_set_getElem?_not_mem (f : Nat → Nat) (order : List Nat)
    (init : List Nat) (k : Nat) (hk : k ∉ order) :
    (order.foldl (fun acc i => acc.set i (f i)) init)[k]? = init[k]? := by
  induction order generalizing init with
  | nil => rfl
  | cons a t ih =>
    simp only [List.mem_cons, not_or] at hk
    rw [List.foldl_cons, ih _ hk.2, List.getElem?_set, if_neg (Ne.symm hk.1)]

theorem foldl_set_getElem?_mem (f : Nat → Nat) (order : List Nat)
    (init : List Nat) (k : Nat) (hnd : order.Nodup) (hk : k ∈ order)
    (hlt : k < init.length) :
    (order.foldl (fun acc i => acc.set i (f i)) init)[k]? = some (f k) := by
  induction order generalizing init with
  | nil => cases hk
  | cons a t ih =>
    obtain ⟨ha, hndt⟩ := List.nodup_cons.mp hnd
    rw [List.foldl_cons]
    rcases List.mem_cons.mp hk with rfl | hkt
    · rw [foldl_set_getElem?_not_mem f t _ k ha, List.getElem?_set]
      simp [hlt]
    · exact ih (init.set a (f a)) hndt hkt (by rw [List.length_set]; exact hlt)

theorem tickSeq_eq_tick (Wc Wd : Nat) (g : Grid) (order : List Nat)
    (hlen : g.cells.length = g.height * g.width)
    (hperm : order.Perm (List.range (g.height * g.width))) :
    tickSeq Wc Wd g order = tick Wc Wd g := by
  have hnd : order.Nodup := hperm.nodup_iff.mpr (List.nodup_range _)
  have hcells : order.foldl (fun acc k => acc.set k (newShade Wc Wd g k)) g.cells =
      (List.range (g.height * g.width)).map (newShade Wc Wd g) := by
    apply List.ext_getElem?
    intro n
    by_cases hn : n < g.height * g.width
    · rw [foldl_set_getElem?_mem _ order g.cells n hnd
        (hperm.mem_iff.mpr (List.mem_range.mpr hn)) (by rw [hlen]; exact hn)]
      simp [List.getElem?_map, List.getElem?_range, hn]
    · rw [List.getElem?_eq_none, List.getElem?_eq_none]
      · simp only [List.length_map, List.length_range]
        omega
      · rw [foldl_set_length, hlen]
        omega
  unfold tickSeq tick
  exact congrArg (Grid.mk g.width g.height) hcells

/-- C9: tick is deterministic and evaluation-order independent: two universes
holding identical grids produce identical next generations, whatever order
their cells are evaluated in, and that common result is tick's. -/
theorem tick_deterministic (Wc Wd : Nat) (g1 g2 : Grid) (ord1 ord2 : List Nat)
    (hw : g1.width = g2.width) (hh : g1.height = g2.height)
    (hc : g1.cells = g2.cells)
    (hlen : g1.cells.length = g1.height * g1.width)
    (hp1 : ord1.Perm (List.range (g1.height * g1.width)))
    (hp2 : ord2.Perm (List.range (g2.height * g2.width))) :
    tickSeq Wc Wd g1 ord1 = tickSeq Wc Wd g2 ord2 ∧
    tickSeq Wc Wd g1 ord1 = tick Wc Wd g1 := by
  have hg : g1 = g2 := by
    cases g1
    cases g2
    simp only [Grid.mk.injEq]
    exact ⟨hw, hh, hc⟩
  subst hg
  have e1 := tickSeq_eq_tick Wc Wd g1 ord1 hlen hp1
  have e2 := tickSeq_eq_tick Wc Wd g1 ord2 hlen hp2
  exact ⟨e1.trans e2.symm, e1⟩

theorem tick_deterministic_witness :
    tickSeq 2 1 exGrid2 [3, 1, 0, 2] = tickSeq 2 1 exGrid2 [0, 1, 2, 3] ∧
    tickSeq 2 1 exGrid2 [3, 1, 0, 2] = tick 2 1 exGrid2 :=
  tick_deterministic 2 1 exGrid2 exGrid2 [3, 1, 0, 2] [0, 1, 2, 3] rfl rfl rfl
    (by decide) (by decide) (by decide)

theorem nbrFinset_eq_toFinset {h w r c : Nat} (hr : r < h) (hc : c < w) :
    nbrFinset h w r c = (nbrList h w r c).toFinset := by
  ext p
  obtain ⟨i, j⟩ := p
  simp only [nbrFinset, Finset.mem_filter, Finset.mem_product, Finset.mem_range,
    List.mem_toFinset, mem_nbrList hr hc]
  constructor
  · exact fun x => x.2
  · intro x
    exact ⟨⟨x.1, x.2.1⟩, x⟩

theorem specWeightTotal_eq_totalWeight (Wc Wd : Nat) (g : Grid) (r c : Nat)
    (hr : r < g.height) (hc : c < g.width) :
    specWeightTotal Wc Wd g.height g.width r c = totalWeight Wc Wd g r c := by
  unfold specWeightTotal totalWeight
  rw [nbrFinset_eq_toFinset hr hc]
  exact List.sum_toFinset _ (nbrList_nodup g.height g.width r c)

theorem specWeightedSum_eq_weightedSum (Wc Wd : Nat) (g : Grid) (r c : Nat)
    (hr : r < g.height) (hc : c < g.width) :
    specWeightedSum Wc Wd g r c = weightedSum Wc Wd g r c := by
  unfold specWeightedSum weightedSum
  rw [nbrFinset_eq_toFinset hr hc]
  exact List.sum_toFinset _ (nbrList_nodup g.height g.width r c)

/-- C1: for every in-range cell with at least one in-grid Moore neighbor,
NeighborAverager returns round(sum of weight_i * shade_i / sum of weight_i)
taken over exactly the in-grid Moore neighbors — cardinal neighbors weighted
Wc, diagonal neighbors Wd, with Wc greater than Wd — out-of-grid positions
contributing to neither sum, and the result clamped into 0..MAX_SHADE. -/
theorem neighborAverager_correct (Wc Wd : Nat) (g : Grid) (r c : Nat)
    (hr : r < g.height) (hc : c < g.width) (hWd : 0 < Wd) (hWcd : Wd < Wc)
    (hne : (nbrFinset g.height g.width r c).Nonempty) :
    neighborAverager Wc Wd g r c =
      min MAX_SHADE
        (roundDiv (specWeightedSum Wc Wd g r c)
          (specWeightTotal Wc Wd g.height g.width r c)) ∧
    neighborAverager Wc Wd g r c ≤ MAX_SHADE := by
  have hlist : nbrList g.height g.width r c ≠ [] := by
    obtain ⟨p, hp⟩ := hne
    rw [nbrFinset_eq_toFinset hr hc, List.mem_toFinset] at hp
    exact List.ne_nil_of_mem hp
  have hW : totalWeight Wc Wd g r c ≠ 0 := by
    unfold totalWeight
    have hpos : 0 < ((nbrList g.height g.width r c).map
        (fun p => nbrWeight Wc Wd r c p.1 p.2)).sum := by
      apply List.sum_pos
      · intro x hx
        simp only [List.mem_map] at hx
        obtain ⟨p, _, rfl⟩ := hx
        unfold nbrWeight
        split_ifs <;> omega
      · simp only [ne_eq, List.map_eq_nil_iff]
        exact hlist
    omega
  rw [specWeightTotal_eq_totalWeight Wc Wd g r c hr hc,
    specWeightedSum_eq_weightedSum Wc Wd g r c hr hc]
  unfold neighborAverager
  simp only
  rw [if_neg hW]
  exact ⟨rfl, min_le_left _ _⟩

theorem neighborAverager_correct_witness :
    neighborAverager 2 1 exGrid2 0 0 =
      min MAX_SHADE
        (roundDiv (specWeightedSum 2 1 exGrid2 0 0)
          (specWeightTotal 2 1 exGrid2.height exGrid2.width 0 0)) ∧
    neighborAverager 2 1 exGrid2 0 0 ≤ MAX_SHADE :=
  neighborAverager_correct 2 1 exGrid2 0 0 (by decide) (by decide) (by decide)
    (by decide) (by decide)

theorem clientState_view_stable (evolve : WasmState → WasmState) (w h : Nat)
    (st0 : WasmState) (m : Nat) :
    (clientState evolve w h st0 m).2 = clientCreateView w h st0 := by
  induction m with
  | zero => rfl
  | succ k ih => simp [clientState, ih]

/-- C10: the rendering client builds its cells view once, at Universe
creation, from the creation-time pointer with length width*height; after any
number of evolve clicks it still renders through that same view, so whenever
evolve has kept the current-cells buffer at its creation address the
displayed bytes are exactly the universe's current cells. -/
theorem client_single_view (evolve : WasmState → WasmState) (w h : Nat)
    (st0 : WasmState) (n : Nat)
    (hstable : (clientState evolve w h st0 n).1.uni.cellsPtr = st0.uni.cellsPtr) :
    (clientState evolve w h st0 n).2 = clientCreateView w h st0 ∧
    (clientState evolve w h st0 n).2.len = w * h ∧
    displayedAt evolve w h st0 n =
      readView (clientState evolve w h st0 n).1.mem
        { ptr := (clientState evolve w h st0 n).1.uni.cellsPtr, len := w * h } := by
  refine ⟨clientState_view_stable evolve w h st0 n, ?_, ?_⟩
  · rw [clientState_view_stable evolve w h st0 n]
    rfl
  · unfold displayedAt
    rw [clientState_view_stable evolve w h st0 n, hstable]
    rfl

theorem client_single_view_witness :
    (clientState (fun st => st) 3 2 { mem := fun k => k, uni := { cellsPtr := 5 } } 2).2 =
      clientCreateView 3 2 { mem := fun k => k, uni := { cellsPtr := 5 } } ∧
    (clientState (fun st => st) 3 2 { mem := fun k => k, uni := { cellsPtr := 5 } } 2).2.len =
      3 * 2 ∧
    displayedAt (fun st => st) 3 2 { mem := fun k => k, uni := { cellsPtr := 5 } } 2 =
      readView
        (clientState (fun st => st) 3 2 { mem := fun k => k, uni := { cellsPtr := 5 } } 2).1.mem
        { ptr := (clientState (fun st => st) 3 2
            { mem := fun k => k, uni := { cellsPtr := 5 } } 2).1.uni.cellsPtr,
          len := 3 * 2 } :=
  client_single_view (fun st => st) 3 2 { mem := fun k => k, uni := { cellsPtr := 5 } } 2 rfl
